import Mathlib

/-!
Shallow embedding of `sspp_subsample.py`, a utility that subsamples a family
of CSV files sharing a leading entity-id column.

A Python string is modelled as a `List Char`; the contents of a text file are
modelled as the list of its lines (each line keeping its payload verbatim).
A Python `set` of id strings is modelled as a `Finset (List Char)`.
`line.split(',')` is modelled by `List.splitOn ','`, and indexing `[0]` into
the (always nonempty) split result by `List.headD` with default `[]`.

`get_ids` reads a file, skips the header line, and accumulates distinct first
fields until the running distinct count reaches `num`; the stop condition is
checked after each line, header included.  `copy_subset` copies the header
line unconditionally and every later line whose first field is a member of
the id set.  `copy_subset` is embedded with the id set threaded through the
loop as explicit state, so that the absence of mutation of the set is a
provable fact rather than a modelling assumption: the function returns both
the list of written lines and the final state of the id set.
-/

/-- A Python string: a list of characters. -/
abbrev Line := List Char

/-- The first comma-delimited field of a line: `line.split(',')[0]`.
`List.splitOn` never returns `[]`, so the `[]` default of `headD` is dead. -/
def firstField (line : Line) : Line :=
  (line.splitOn ',').headD []

/-- Loop body of `get_ids`.  `numIds` is the Python `num_ids` counter,
starting at `-1` so that the first line is recognised as the header and
skipped.  After each line (header included) the loop returns early when
`numIds >= num`. -/
def getIdsLoop (num : Int) : List Line → Finset Line → Int → Finset Line
  | [], ids, _ => ids
  | line :: rest, ids, numIds =>
    let st : Finset Line × Int :=
      if numIds = -1 then
        (ids, 0)
      else
        if firstField line ∈ ids then (ids, numIds)
        else (insert (firstField line) ids, numIds + 1)
    if st.2 ≥ num then st.1 else getIdsLoop num rest st.1 st.2

/-- `get_ids(input_file, num)`: the first `num` distinct object ids of the
file, the file being given as its list of lines. -/
def get_ids (lines : List Line) (num : Int) : Finset Line :=
  getIdsLoop num lines ∅ (-1)

/-- Loop of `copy_subset`.  `header` is the Python `header` flag, true only
for the first line.  The id set is threaded through the iterations and
returned, mirroring the mutable Python set passed into the function. -/
def copySubsetLoop : List Line → Finset Line → Bool → List Line × Finset Line
  | [], ids, _ => ([], ids)
  | line :: rest, ids, header =>
    let written : List Line :=
      if header = true ∨ firstField line ∈ ids then [line] else []
    let out := copySubsetLoop rest ids false
    (written ++ out.1, out.2)

/-- `copy_subset(input_file, output_file, ids)`: returns the lines written to
the output file together with the final state of the id set. -/
def copy_subset (lines : List Line) (ids : Finset Line) : List Line × Finset Line :=
  copySubsetLoop lines ids true

/-- The set of distinct first fields among a list of data lines. -/
def distinctIds (dataLines : List Line) : Finset Line :=
  (dataLines.map firstField).toFinset

/-! ### Helper lemmas -/

theorem copySubsetLoop_false (lines : List Line) (ids : Finset Line) :
    copySubsetLoop lines ids false
      = (lines.filter (fun l => decide (firstField l ∈ ids)), ids) := by
  induction lines with
  | nil => rfl
  | cons line rest ih =>
    simp only [copySubsetLoop, ih, List.filter_cons]
    by_cases h : firstField line ∈ ids <;> simp [h]

theorem copy_subset_cons (h : Line) (ds : List Line) (ids : Finset Line) :
    copy_subset (h :: ds) ids
      = (h :: ds.filter (fun l => decide (firstField l ∈ ids)), ids) := by
  simp [copy_subset, copySubsetLoop, copySubsetLoop_false]

theorem distinctIds_cons (line : Line) (rest : List Line) :
    distinctIds (line :: rest) = insert (firstField line) (distinctIds rest) := by
  simp [distinctIds]

theorem getIdsLoop_card (num : Int) (ds : List Line) (ids : Finset Line)
    (hlt : (ids.card : Int) < num) :
    ((getIdsLoop num ds ids ids.card).card : Int)
      = min num ((ids ∪ distinctIds ds).card : Int) := by
  induction ds generalizing ids with
  | nil =>
    have : ¬ ((ids.card : Int) ≥ num) := by omega
    simp only [getIdsLoop, distinctIds, List.map_nil, List.toFinset_nil,
      Finset.union_empty]
    omega
  | cons line rest ih =>
    have hm1 : ¬ ((ids.card : Int) = -1) := by omega
    by_cases hmem : firstField line ∈ ids
    · have hins : ids ∪ distinctIds (line :: rest) = ids ∪ distinctIds rest := by
        rw [distinctIds_cons, Finset.union_insert, Finset.insert_eq_self.mpr]
        exact Finset.mem_union_left _ hmem
      simp only [getIdsLoop, if_neg hm1, if_pos hmem]
      have : ¬ ((ids.card : Int) ≥ num) := by omega
      simp only [if_neg this]
      rw [ih ids hlt, hins]
    · have hcard : ((insert (firstField line) ids).card : Int) = ids.card + 1 := by
        rw [Finset.card_insert_of_not_mem hmem]; push_cast; ring
      have hins : ids ∪ distinctIds (line :: rest)
          = insert (firstField line) ids ∪ distinctIds rest := by
        rw [distinctIds_cons, Finset.union_insert, Finset.insert_union]
      simp only [getIdsLoop, if_neg hm1, if_neg hmem]
      by_cases hstop : (ids.card : Int) + 1 ≥ num
      · have hnum : num = (ids.card : Int) + 1 := by omega
        simp only [ge_iff_le, hstop, if_pos]
        have hsub : insert (firstField line) ids ⊆ ids ∪ distinctIds (line :: rest) := by
          rw [hins]; exact Finset.subset_union_left
        have hle : (insert (firstField line) ids).card
            ≤ (ids ∪ distinctIds (line :: rest)).card := Finset.card_le_card hsub
        omega
      · simp only [ge_iff_le, if_neg (by omega : ¬ num ≤ (ids.card : Int) + 1)]
        have hrec := ih (insert (firstField line) ids) (by omega)
        rw [hcard] at hrec
        rw [hins, ← hrec]

theorem get_ids_cons_card (header : Line) (ds : List Line) (num : Int) :
    ((get_ids (header :: ds) num).card : Int)
      = if num ≤ 0 then 0 else min num ((distinctIds ds).card : Int) := by
  have hred : get_ids (header :: ds) num
      = if (0 : Int) ≥ num then ∅ else getIdsLoop num ds ∅ 0 := by
    simp [get_ids, getIdsLoop]
  rw [hred]
  by_cases hz : (0 : Int) ≥ num
  · simp only [if_pos hz, if_pos (by omega : num ≤ 0), Finset.card_empty,
      Nat.cast_zero]
  · rw [if_neg hz, if_neg (by omega : ¬ num ≤ 0)]
    have := getIdsLoop_card num ds ∅ (by simpa using (by omega : (0 : Int) < num))
    simpa using this

theorem splitOn_comma_ne_nil (line : Line) : line.splitOn ',' ≠ [] :=
  List.splitOnP_ne_nil _ _

theorem getIdsLoop_header (num : Int) (line : Line) (rest : List Line)
    (ids : Finset Line) (hlt : ¬ (0 : Int) ≥ num) :
    getIdsLoop num (line :: rest) ids (-1) = getIdsLoop num rest ids 0 := by
  simp only [getIdsLoop, if_pos rfl]
  exact if_neg hlt

theorem getIdsLoop_new_stop (num : Int) (line : Line) (rest : List Line)
    (ids : Finset Line) (k : Int) (hk : ¬ k = -1) (hmem : firstField line ∉ ids)
    (hge : k + 1 ≥ num) :
    getIdsLoop num (line :: rest) ids k = insert (firstField line) ids := by
  simp only [getIdsLoop, if_neg hk, if_neg hmem]
  exact if_pos hge

theorem getIdsLoop_new_go (num : Int) (line : Line) (rest : List Line)
    (ids : Finset Line) (k : Int) (hk : ¬ k = -1) (hmem : firstField line ∉ ids)
    (hlt : ¬ k + 1 ≥ num) :
    getIdsLoop num (line :: rest) ids k
      = getIdsLoop num rest (insert (firstField line) ids) (k + 1) := by
  simp only [getIdsLoop, if_neg hk, if_neg hmem]
  exact if_neg hlt

/-! ### Claim theorems -/

/-- Claim C1: for every source file (header followed by data lines), every id
set and every data line, `copy_subset` writes the line to the output exactly
when its first comma-delimited field is a member of the id set, and the
retained lines keep their source order: the output is the header followed by
the in-order filter of the data lines by id membership. -/
theorem copy_subset_filters_by_id (h : Line) (ds : List Line) (ids : Finset Line) :
    (copy_subset (h :: ds) ids).1
      = h :: ds.filter (fun l => decide (firstField l ∈ ids)) := by
  rw [copy_subset_cons]

/-- Claim C2: for every file (one header line followed by data lines) and
every non-negative `target_count` `n`, the set returned by `get_ids` has size
`min n d`, where `d` is the number of distinct first fields among the data
lines; hence the size is at most `n + 1`, at most `d`, and equals `n`
whenever the file contains at least `n` distinct ids. -/
theorem get_ids_card_eq_min (header : Line) (ds : List Line) (n : Nat) :
    (get_ids (header :: ds) (n : Int)).card = min n (distinctIds ds).card ∧
    (get_ids (header :: ds) (n : Int)).card ≤ n + 1 ∧
    (get_ids (header :: ds) (n : Int)).card ≤ (distinctIds ds).card ∧
    (n ≤ (distinctIds ds).card → (get_ids (header :: ds) (n : Int)).card = n) := by
  have h := get_ids_cons_card header ds (n : Int)
  have hmain : (get_ids (header :: ds) (n : Int)).card
      = min n (distinctIds ds).card := by
    by_cases hc : (n : Int) ≤ 0
    · rw [if_pos hc] at h
      have hn0 : n = 0 := by omega
      have hcard0 : (get_ids (header :: ds) (n : Int)).card = 0 := by
        exact_mod_cast h
      rw [hcard0, hn0]
      simp
    · rw [if_neg hc] at h
      have hmn : ((min n (distinctIds ds).card : Nat) : Int)
          = min (n : Int) ((distinctIds ds).card : Int) :=
        Nat.cast_min n (distinctIds ds).card
      exact_mod_cast h.trans hmn.symm
  refine ⟨hmain, ?_, ?_, ?_⟩ <;> omega

/-- Claim C3: for every input file with at least one line and every id set
(the empty set included), the first line of the output of `copy_subset`
equals the first line of the input; the header is written regardless of the
id set, so its first field is never tested for membership. -/
theorem copy_subset_preserves_header (h : Line) (ds : List Line) (ids : Finset Line) :
    (copy_subset (h :: ds) ids).1.head? = some h := by
  rw [copy_subset_cons]
  rfl

/-- Claim C4, counterexample: with `target_count = 0` and a source holding a
header line and one data line with first field `A`, `get_ids` returns the
empty set, not the one-element set `{A}` claimed as the overshoot. -/
theorem get_ids_zero_overshoot_counterexample :
    get_ids ["id,t,x,y,z".toList, "A,1,2,3,4".toList] 0 = ∅ ∧
    get_ids ["id,t,x,y,z".toList, "A,1,2,3,4".toList] 0
      ≠ {firstField "A,1,2,3,4".toList} := by
  decide

/-- Claim C4, amended: when `target_count` is 0 and the source has at least
one line, the stop condition `num_ids >= num` already holds right after the
header line is processed, so `get_ids` returns the empty set before reading
any data line; no overshoot occurs. -/
theorem get_ids_zero_returns_empty (header : Line) (ds : List Line) :
    get_ids (header :: ds) 0 = ∅ := by
  show getIdsLoop 0 (header :: ds) ∅ (-1) = ∅
  simp [getIdsLoop]

/-- Claim C5: on the file with header `id,t,x,y,z` and data rows with first
fields `A`, `B`, `A`, `C` and `num = 2`, `get_ids` returns exactly
`{A, B}`; moreover reading stops as soon as `B` is added: whatever follows
the `B` row never influences the result. -/
theorem get_ids_end_to_end_scenario :
    get_ids ["id,t,x,y,z".toList, "A,1,2,3,4".toList, "B,1,2,3,4".toList,
        "A,2,3,4,5".toList, "C,1,2,3,4".toList] 2
      = {"A".toList, "B".toList} ∧
    ∀ rest : List Line,
      get_ids (["id,t,x,y,z".toList, "A,1,2,3,4".toList, "B,1,2,3,4".toList]
          ++ rest) 2
        = {"A".toList, "B".toList} := by
  refine ⟨by decide, ?_⟩
  intro rest
  show getIdsLoop 2 ("id,t,x,y,z".toList :: "A,1,2,3,4".toList
      :: "B,1,2,3,4".toList :: rest) ∅ (-1) = {"A".toList, "B".toList}
  rw [getIdsLoop_header _ _ _ _ (by norm_num),
    getIdsLoop_new_go _ _ _ _ _ (by norm_num) (by decide) (by norm_num),
    getIdsLoop_new_stop _ _ _ _ _ (by norm_num) (by decide) (by norm_num)]
  decide

/-- Claim C6: extracting the first comma-delimited field is total on every
line: splitting on the comma always yields at least one field, on a line
with no comma the first field is the whole line (the empty string for an
empty line), and `firstField` is exactly indexing the split at position 0,
so neither `get_ids` nor `copy_subset` can hit an out-of-range index. -/
theorem firstField_always_defined (line : Line) :
    line.splitOn ',' ≠ [] ∧
    firstField line = (line.splitOn ',').headD [] ∧
    (',' ∉ line → line.splitOn ',' = [line] ∧ firstField line = line) ∧
    firstField ([] : Line) = [] := by
  refine ⟨splitOn_comma_ne_nil line, rfl, ?_, rfl⟩
  intro hnc
  have hsingle : line.splitOn ',' = [line] := by
    show line.splitOnP (· == ',') = [line]
    apply List.splitOnP_eq_single
    intro x hx
    simp only [beq_iff_eq]
    exact fun hEq => hnc (hEq ▸ hx)
  exact ⟨hsingle, by simp [firstField, hsingle]⟩

theorem firstField_always_defined_witness :
    "Alpha1".toList.splitOn ',' = ["Alpha1".toList] ∧
    firstField "Alpha1".toList = "Alpha1".toList :=
  (firstField_always_defined "Alpha1".toList).2.2.1 (by decide)

/-- Claim C7: `copy_subset` never mutates the id set: with the set threaded
through the loop as explicit state, the state returned after processing any
file equals the set passed in; no element is added or removed. -/
theorem copy_subset_ids_unchanged (lines : List Line) (ids : Finset Line) :
    (copy_subset lines ids).2 = ids := by
  cases lines with
  | nil => rfl
  | cons l rest =>
    show (copySubsetLoop (l :: rest) ids true).2 = ids
    simp [copySubsetLoop, copySubsetLoop_false]

/-- Claim C8: both operations are deterministic: runs of `get_ids` on equal
file contents and equal target counts return equal id sets, and runs of
`copy_subset` on equal file contents and equal id sets produce identical
output lines. -/
theorem subsample_deterministic (lines lines' : List Line) (num num' : Int)
    (ids ids' : Finset Line)
    (h1 : lines = lines') (h2 : num = num') (h3 : ids = ids') :
    get_ids lines num = get_ids lines' num' ∧
    copy_subset lines ids = copy_subset lines' ids' := by
  subst h1; subst h2; subst h3
  exact ⟨rfl, rfl⟩

theorem subsample_deterministic_witness :
    get_ids ["id,x".toList, "A,1".toList] 1
      = get_ids ["id,x".toList, "A,1".toList] 1 ∧
    copy_subset ["id,x".toList, "A,1".toList] {"A".toList}
      = copy_subset ["id,x".toList, "A,1".toList] {"A".toList} :=
  subsample_deterministic _ _ _ _ _ _ rfl rfl rfl

/-- Claim C9: for every target count at most 0 and every file, `get_ids`
returns the empty set: on an empty file the loop never runs, and otherwise
the stop condition is checked right after the header line is processed, when
the counter is 0, so the function returns before any data line contributes
an id. -/
theorem get_ids_nonpos_empty (lines : List Line) (num : Int) (hnum : num ≤ 0) :
    get_ids lines num = ∅ := by
  cases lines with
  | nil => rfl
  | cons l rest =>
    show getIdsLoop num (l :: rest) ∅ (-1) = ∅
    simp only [getIdsLoop, if_pos rfl]
    exact if_pos (by simpa using hnum)

theorem get_ids_nonpos_empty_witness :
    get_ids ["id,t,x,y,z".toList, "A,1,2,3,4".toList] (-5) = ∅ :=
  get_ids_nonpos_empty _ _ (by norm_num)

/-- Claim C10: on a file with zero lines, `copy_subset` writes zero lines:
no header is fabricated, the output is produced (the destination is still
created) and is empty, and the id set state is unchanged. -/
theorem copy_subset_empty_input (ids : Finset Line) :
    copy_subset [] ids = ([], ids) := rfl
